import Mathlib

/-!
Shallow embedding of the stat-event ledger and aggregation engine of
`src/RustlersStatsApp.tsx` (a single-file offline basketball scorekeeping
app).  JavaScript numbers that the program only ever uses as integers are
modelled as `Int` (all stat values and scores are integers in the program:
they start at 0 and are only changed by integer deltas).  Nondeterministic
environment inputs (`uid()` fresh-id generation, `Date.now()` timestamps)
are passed in as explicit parameters.  `Record<string, Line>` objects are
modelled as association lists with first-match lookup; the JS object-spread
update `{...m, [id]: v}` keeps the position of an existing key and appends
a new one, which `setLine` mirrors.
-/

/-- The closed set of 9 stat keys (`STAT_KEYS` in the source). -/
inductive StatKey where
  | pts | fgm | fga | tpm | tpa | ftm | fta | to | pf
deriving DecidableEq, Repr

/-- `const STAT_KEYS = ["pts","fgm","fga","tpm","tpa","ftm","fta","to","pf"]`. -/
def STAT_KEYS : List StatKey :=
  [.pts, .fgm, .fga, .tpm, .tpa, .ftm, .fta, .to, .pf]

/-- `type Line = Record<StatKey, number>`: a fixed-shape 9-key stat line. -/
structure Line where
  pts : Int
  fgm : Int
  fga : Int
  tpm : Int
  tpa : Int
  ftm : Int
  fta : Int
  to_ : Int  -- the `to` (turnovers) key; `to` is a Lean keyword
  pf : Int
deriving DecidableEq, Repr

/-- Read one key of a line (`l[k]` in the source). -/
def Line.get (l : Line) : StatKey → Int
  | .pts => l.pts
  | .fgm => l.fgm
  | .fga => l.fga
  | .tpm => l.tpm
  | .tpa => l.tpa
  | .ftm => l.ftm
  | .fta => l.fta
  | .to => l.to_
  | .pf => l.pf

/-- `type Delta = Partial<Record<StatKey, number>>`: a sparse signed delta
(`none` = key absent from the object). -/
structure Delta where
  pts : Option Int := none
  fgm : Option Int := none
  fga : Option Int := none
  tpm : Option Int := none
  tpa : Option Int := none
  ftm : Option Int := none
  fta : Option Int := none
  to_ : Option Int := none  -- the `to` (turnovers) key; `to` is a Lean keyword
  pf : Option Int := none
deriving DecidableEq, Repr

/-- Read one key of a delta (`delta[k]`, `none` when `== null`). -/
def Delta.get (d : Delta) : StatKey → Option Int
  | .pts => d.pts
  | .fgm => d.fgm
  | .fga => d.fga
  | .tpm => d.tpm
  | .tpa => d.tpa
  | .ftm => d.ftm
  | .fta => d.fta
  | .to => d.to_
  | .pf => d.pf

/-- `function emptyLine()`: the all-zero line. -/
def emptyLine : Line :=
  { pts := 0, fgm := 0, fga := 0, tpm := 0, tpa := 0, ftm := 0, fta := 0,
    to_ := 0, pf := 0 }

/-- `function clamp0(n) { return n < 0 ? 0 : n; }` -/
def clamp0 (n : Int) : Int :=
  if n < 0 then 0 else n

/-- One iteration of the apply loop:
`if (delta[k] != null) next[k] = clamp0((next[k] || 0) + delta[k])`
(`next[k] || 0` is the identity here because every stored stat value is a
number). -/
def applyOne (cur : Int) (d : Option Int) : Int :=
  match d with
  | some x => clamp0 (cur + x)
  | none => cur

/-- The per-line effect of `applyDelta`'s update loop over `STAT_KEYS`:
each key present in the delta is added and clamped, absent keys unchanged. -/
def applyDeltaLine (cur : Line) (delta : Delta) : Line :=
  { pts := applyOne cur.pts delta.pts
    fgm := applyOne cur.fgm delta.fgm
    fga := applyOne cur.fga delta.fga
    tpm := applyOne cur.tpm delta.tpm
    tpa := applyOne cur.tpa delta.tpa
    ftm := applyOne cur.ftm delta.ftm
    fta := applyOne cur.fta delta.fta
    to_ := applyOne cur.to_ delta.to_
    pf := applyOne cur.pf delta.pf }

/-- The negation loop of `undoLast`:
`for k, if (last.delta[k] != null) neg[k] = -last.delta[k]`. -/
def negDelta (d : Delta) : Delta :=
  { pts := d.pts.map Neg.neg
    fgm := d.fgm.map Neg.neg
    fga := d.fga.map Neg.neg
    tpm := d.tpm.map Neg.neg
    tpa := d.tpa.map Neg.neg
    ftm := d.ftm.map Neg.neg
    fta := d.fta.map Neg.neg
    to_ := d.to_.map Neg.neg
    pf := d.pf.map Neg.neg }

/-- Key-wise sum of two lines (one iteration of `sumLines`'s inner loop;
`l[k] || 0` is the identity on stored numbers). -/
def addLine (a b : Line) : Line :=
  { pts := a.pts + b.pts, fgm := a.fgm + b.fgm, fga := a.fga + b.fga,
    tpm := a.tpm + b.tpm, tpa := a.tpa + b.tpa, ftm := a.ftm + b.ftm,
    fta := a.fta + b.fta, to_ := a.to_ + b.to_, pf := a.pf + b.pf }

/-- A `Record<string, Line>` object, as an association list (first-match
lookup; JS object keys are unique, so well-formed states have unique keys). -/
abbrev LinesMap : Type := List (String × Line)

/-- Property lookup `m[id]` on a `Record<string, Line>`. -/
def lookupLine (m : LinesMap) (id : String) : Option Line :=
  match m with
  | [] => none
  | (k, l) :: rest => if k = id then some l else lookupLine rest id

/-- `m[playerId] || emptyLine()` (a stored line object is always truthy). -/
def getLine (m : LinesMap) (id : String) : Line :=
  (lookupLine m id).getD emptyLine

/-- The JS object-spread update `{...m, [id]: l}`: an existing key keeps its
position and gets the new value, a new key is appended. -/
def setLine (m : LinesMap) (id : String) (l : Line) : LinesMap :=
  if m.any (fun p => p.1 = id) then
    m.map (fun p => if p.1 = id then (id, l) else p)
  else
    m ++ [(id, l)]

/-- `function sumLines(lines, ids)`: fold the lines of `ids` onto the zero
line; a missing id contributes `emptyLine()`. -/
def sumLines (lines : LinesMap) (ids : List String) : Line :=
  ids.foldl (fun tot id => addLine tot (getLine lines id)) emptyLine

/-- `type SideKey = "home" | "opp"`. -/
inductive Side where
  | home | opp
deriving DecidableEq, Repr

/-- `type TeamKey = "girls" | "boys"`. -/
inductive TeamKey where
  | girls | boys
deriving DecidableEq, Repr

/-- `type Player` — all free-form strings. -/
structure Player where
  id : String
  no : String
  name : String
  ht : String
  cls : String
  pos : String
deriving DecidableEq, Repr

/-- `type HistoryEvent` (`at` is a Lean keyword, modelled as `at_`). -/
structure HistoryEvent where
  id : String
  at_ : Int
  period : String
  side : Side
  playerId : String
  label : String
  delta : Delta
  homeScore : Int
  oppScore : Int
deriving DecidableEq, Repr

/-- `type UndoAction`; `historyId` is optional (absent for legacy data). -/
structure UndoAction where
  at_ : Int
  label : String
  side : Side
  playerId : String
  delta : Delta
  historyId : Option String := none
deriving DecidableEq, Repr

/-- `type Game`. -/
structure Game where
  id : String
  team : TeamKey
  dateISO : String
  opponent : String
  location : String
  notes : String
  homeRosterIds : List String
  oppRoster : List Player
  linesHome : LinesMap
  linesOpp : LinesMap
  undo : List UndoAction
  period : String
  scoreHome : Int
  scoreOpp : Int
  history : List HistoryEvent
deriving DecidableEq, Repr

/-- `const PERIODS = ["Q1", "Q2", "Q3", "Q4", "OT"]`. -/
def PERIODS : List String := ["Q1", "Q2", "Q3", "Q4", "OT"]

/-- The line mapping of one side
(`sideKey === "home" ? "linesHome" : "linesOpp"`). -/
def sideLines (g : Game) : Side → LinesMap
  | .home => g.linesHome
  | .opp => g.linesOpp

/-- Write back the line mapping of one side. -/
def setSideLines (g : Game) (s : Side) (m : LinesMap) : Game :=
  match s with
  | .home => { g with linesHome := m }
  | .opp => { g with linesOpp := m }

/-- The running score of one side. -/
def sideScore (g : Game) : Side → Int
  | .home => g.scoreHome
  | .opp => g.scoreOpp

/-- The scoreboard step of `applyDelta`/`undoLast`:
`if (ptsDelta !== 0) { if (side === "home") scoreHome = clamp0(scoreHome + ptsDelta); else scoreOpp = ... }`. -/
def updScores (sh so : Int) (s : Side) (pd : Int) : Int × Int :=
  if pd = 0 then (sh, so)
  else
    match s with
    | Side.home => (clamp0 (sh + pd), so)
    | Side.opp => (sh, clamp0 (so + pd))

/-- `const applyDelta = (sideKey, playerId, delta, label) => ...` on the
active game.  The fresh history id (`uid("h")`) and the timestamp
(`Date.now()`) are explicit parameters. -/
def applyDelta (g : Game) (sideKey : Side) (playerId : String)
    (delta : Delta) (label historyId : String) (now : Int) : Game :=
  let cur := getLine (sideLines g sideKey) playerId
  let next := applyDeltaLine cur delta
  let ptsDelta := delta.pts.getD 0
  let scores := updScores g.scoreHome g.scoreOpp sideKey ptsDelta
  let ev : HistoryEvent :=
    { id := historyId, at_ := now,
      period := if g.period = "" then "Q1" else g.period,
      side := sideKey, playerId := playerId, label := label, delta := delta,
      homeScore := scores.1, oppScore := scores.2 }
  let ua : UndoAction :=
    { at_ := now, label := label, side := sideKey, playerId := playerId,
      delta := delta, historyId := some historyId }
  let base := setSideLines g sideKey (setLine (sideLines g sideKey) playerId next)
  { base with
    undo := (ua :: g.undo).take 300,
    scoreHome := scores.1, scoreOpp := scores.2,
    history := (ev :: g.history).take 500 }

/-- Result of `undoLast`: the updated game plus the transient notice shown
to the user (`setToast`). -/
structure UndoResult where
  game : Game
  toast : String
deriving DecidableEq, Repr

/-- `const undoLast = () => ...` on the active game. -/
def undoLast (g : Game) : UndoResult :=
  match g.undo with
  | [] => { game := g, toast := "Nothing to undo" }
  | last :: rest =>
    let neg := negDelta last.delta
    let cur := getLine (sideLines g last.side) last.playerId
    let next := applyDeltaLine cur neg
    let ptsNeg := neg.pts.getD 0
    let scores := updScores g.scoreHome g.scoreOpp last.side ptsNeg
    let history :=
      match last.historyId with
      | none => g.history
      | some hid =>
        -- JS: `if (last.historyId && history.length && history[0].id === last.historyId)`
        -- (an empty-string id is falsy and skips both removal branches)
        if hid = "" then g.history
        else
          match g.history with
          | [] => []
          | h :: t =>
            if h.id = hid then t
            else List.filter (fun e => e.id != hid) (h :: t)
    let base := setSideLines g last.side (setLine (sideLines g last.side) last.playerId next)
    { game :=
        { base with
          undo := rest,
          scoreHome := scores.1, scoreOpp := scores.2,
          history := history },
      toast := "Undo: " ++ last.label }

/-- JS `Array.prototype.indexOf`: index of the first occurrence, or -1. -/
def jsIndexOf (x : String) : List String → Int
  | [] => -1
  | a :: rest =>
    if a = x then 0
    else
      let r := jsIndexOf x rest
      if r = -1 then -1 else r + 1

/-- `const nextPeriod = () => ...`: advance `activeGame.period || "Q1"` to
the next entry of `PERIODS`, clamped at the last index
(`PERIODS[Math.min(PERIODS.length - 1, idx + 1)]`, `idx = indexOf`, -1 when
absent). -/
def nextPeriod (g : Game) : Game :=
  let p := if g.period = "" then "Q1" else g.period
  let idx : Int := jsIndexOf p PERIODS
  let j := min ((PERIODS.length : Int) - 1) (idx + 1)
  { g with period := PERIODS.getD j.toNat "" }

/-- `const clearGameStats = () => ...`: zero every roster line on both
sides, clear scores, history and undo, reset the period. -/
def clearGameStats (g : Game) : Game :=
  let linesHome : LinesMap := g.homeRosterIds.map (fun id => (id, emptyLine))
  let linesOpp : LinesMap := g.oppRoster.map (fun p => (p.id, emptyLine))
  { g with
    linesHome := linesHome, linesOpp := linesOpp,
    undo := [], scoreHome := 0, scoreOpp := 0, history := [],
    period := "Q1" }

/-- The parameters of one apply-event user action. -/
structure EvArgs where
  side : Side
  playerId : String
  delta : Delta
  label : String
  historyId : String
  now : Int
deriving DecidableEq, Repr

/-- Apply one event given as an `EvArgs` bundle. -/
def applyEv (g : Game) (a : EvArgs) : Game :=
  applyDelta g a.side a.playerId a.delta a.label a.historyId a.now

/-- Apply a sequence of events left to right. -/
def applyMany (g : Game) (ps : List EvArgs) : Game :=
  ps.foldl applyEv g

/-- One ledger operation: an applied stat event or an undo tap. -/
inductive Op where
  | ev (a : EvArgs)
  | undoOp
deriving DecidableEq, Repr

/-- One step of the ledger state machine. -/
def stepOp (g : Game) : Op → Game
  | .ev a => applyEv g a
  | .undoOp => (undoLast g).game

/-- Run a sequence of apply/undo operations left to right. -/
def runOps (g : Game) (ops : List Op) : Game :=
  ops.foldl stepOp g

/-- No clamp in either direction for one key: when the key is present with
delta `x`, the current value is ≥ 0 (so un-applying `x` will not clamp) and
the value after adding `x` is ≥ 0 (so applying `x` does not clamp). -/
def noClampOpt (c : Int) (o : Option Int) : Bool :=
  match o with
  | some x => decide (0 ≤ c) && decide (0 ≤ c + x)
  | none => true

/-- No clamp is triggered, in either direction, when `delta` hits `cur`. -/
def noClampLine (cur : Line) (delta : Delta) : Bool :=
  STAT_KEYS.all (fun k => noClampOpt (cur.get k) (delta.get k))

/-- All 9 values of a line are ≥ 0. -/
def LineNonNeg (l : Line) : Prop :=
  0 ≤ l.pts ∧ 0 ≤ l.fgm ∧ 0 ≤ l.fga ∧ 0 ≤ l.tpm ∧ 0 ≤ l.tpa ∧
  0 ≤ l.ftm ∧ 0 ≤ l.fta ∧ 0 ≤ l.to_ ∧ 0 ≤ l.pf

instance (l : Line) : Decidable (LineNonNeg l) := by
  unfold LineNonNeg
  infer_instance

/-- Every line stored in the mapping is non-negative. -/
def LinesNonNeg (m : LinesMap) : Prop :=
  ∀ e ∈ m, LineNonNeg e.2

instance (m : LinesMap) : Decidable (LinesNonNeg m) :=
  List.decidableBAll _ m

/-- Every stat value of every player's line and both scores are ≥ 0. -/
def GameNonNeg (g : Game) : Prop :=
  LinesNonNeg g.linesHome ∧ LinesNonNeg g.linesOpp ∧
  0 ≤ g.scoreHome ∧ 0 ≤ g.scoreOpp

instance (g : Game) : Decidable (GameNonNeg g) := by
  unfold GameNonNeg
  infer_instance

/-- The two team-keyed roster templates (`type Roster` / `type OppRoster`,
both `{ girls: Player[]; boys: Player[] }`). -/
structure Rosters where
  girls : List Player
  boys : List Player
deriving DecidableEq, Repr

/-- Index a roster record by team key (`store.roster[team]`). -/
def Rosters.get (r : Rosters) : TeamKey → List Player
  | .girls => r.girls
  | .boys => r.boys

/-- `{ ...r, [team]: next }` on a roster record. -/
def Rosters.set (r : Rosters) (t : TeamKey) (next : List Player) : Rosters :=
  match t with
  | .girls => { r with girls := next }
  | .boys => { r with boys := next }

/-- `type Store`. -/
structure Store where
  roster : Rosters
  oppRoster : Rosters
  games : List Game
deriving DecidableEq, Repr

/-- `function cloneRosterWithNewIds(list, idPrefix)`: copy each player with
a freshly generated id (`uid(idPrefix)`, supplied here as the stream
`freshIds`); `p.no || ""` etc. are the identity on strings. -/
def cloneRosterWithNewIds (list : List Player) (freshIds : List String) :
    List Player :=
  (List.zip list freshIds).map fun pi =>
    { id := pi.2, no := pi.1.no, name := pi.1.name, ht := pi.1.ht,
      cls := pi.1.cls, pos := pi.1.pos }

/-- `const ensureGame = () => ...`: build a new game from the current
roster templates and prepend it to the store's game list.  `uid("g")`,
`todayISO()` and the cloned opponent ids are explicit parameters. -/
def ensureGame (s : Store) (team : TeamKey) (freshIds : List String)
    (gid dateISO : String) : Store × Game :=
  let oppR := cloneRosterWithNewIds (s.oppRoster.get team) freshIds
  let homeIds := (s.roster.get team).map (fun p => p.id)
  let g : Game :=
    { id := gid, team := team, dateISO := dateISO, opponent := "",
      location := "", notes := "",
      homeRosterIds := homeIds, oppRoster := oppR,
      linesHome := homeIds.map (fun i => (i, emptyLine)),
      linesOpp := oppR.map (fun p => (p.id, emptyLine)),
      undo := [], period := "Q1", scoreHome := 0, scoreOpp := 0,
      history := [] }
  ({ s with games := g :: s.games }, g)

/-- `const setOppTemplate = (next) => setStore(s => ({ ...s, oppRoster:
{ ...s.oppRoster, [team]: next } }))`: the opponent-template edit path. -/
def setOppTemplate (s : Store) (team : TeamKey) (next : List Player) :
    Store :=
  { s with oppRoster := s.oppRoster.set team next }

/-- A persisted JS number slot: either an actual number or anything else
(absent, `null`, a string, ...) for which `typeof v === "number"` fails. -/
inductive RawNum where
  | num (n : Int)
  | other
deriving DecidableEq, Repr

/-- `typeof v === "number" ? v : 0` (the body of `toLineAny`'s loop). -/
def numOr0 : RawNum → Int
  | .num n => n
  | .other => 0

/-- A persisted stat-line object whose 9 slots may each hold anything. -/
structure RawLine where
  pts : RawNum := .other
  fgm : RawNum := .other
  fga : RawNum := .other
  tpm : RawNum := .other
  tpa : RawNum := .other
  ftm : RawNum := .other
  fta : RawNum := .other
  to_ : RawNum := .other
  pf : RawNum := .other
deriving DecidableEq, Repr

/-- `function toLineAny(obj)`: normalize a possibly-absent, possibly
ill-typed stored line to a well-formed `Line`. -/
def toLineAny (o : Option RawLine) : Line :=
  match o with
  | none => emptyLine
  | some r =>
    { pts := numOr0 r.pts, fgm := numOr0 r.fgm, fga := numOr0 r.fga,
      tpm := numOr0 r.tpm, tpa := numOr0 r.tpa, ftm := numOr0 r.ftm,
      fta := numOr0 r.fta, to_ := numOr0 r.to_, pf := numOr0 r.pf }

/-- Property lookup on a persisted `Record<string, any-line>`
(`g.linesHome?.[id]`; an absent mapping is modelled as the empty list,
which looks up to `none` for every id exactly like `undefined?.[id]`). -/
def lookupRawLine (m : List (String × RawLine)) (id : String) :
    Option RawLine :=
  match m with
  | [] => none
  | (k, l) :: rest => if k = id then some l else lookupRawLine rest id

/-- One persisted game as found in a snapshot, before migration.  Fields
the migration reads defensively are modelled with their raw shape; fields
it spreads through unchanged keep their final type. -/
structure RawGame where
  id : String
  team : TeamKey
  dateISO : String
  opponent : String
  location : String
  notes : String
  homeRosterIds : List String
  oppRoster : List Player
  linesHome : List (String × RawLine)
  linesOpp : List (String × RawLine)
  undo : Option (List UndoAction)
  period : Option String
  scoreHome : RawNum
  scoreOpp : RawNum
  history : Option (List HistoryEvent)
deriving DecidableEq, Repr

/-- The per-game normalization inside `loadStore`'s `parsed.games.map`:
rebuild both line mappings over the current roster ids, then default
`period`, `scoreHome`/`scoreOpp` (from the recomputed point sums) and
`history`/`undo`. -/
def migrateGame (raw : RawGame) : Game :=
  let homeIds := raw.homeRosterIds
  let oppIds := raw.oppRoster.map (fun p => p.id)
  let linesHome : LinesMap :=
    homeIds.map (fun id => (id, toLineAny (lookupRawLine raw.linesHome id)))
  let linesOpp : LinesMap :=
    oppIds.map (fun id => (id, toLineAny (lookupRawLine raw.linesOpp id)))
  let homePts := (sumLines linesHome homeIds).pts
  let oppPts := (sumLines linesOpp oppIds).pts
  { id := raw.id, team := raw.team, dateISO := raw.dateISO,
    opponent := raw.opponent, location := raw.location, notes := raw.notes,
    homeRosterIds := homeIds, oppRoster := raw.oppRoster,
    linesHome := linesHome, linesOpp := linesOpp,
    undo := raw.undo.getD [],
    period := match raw.period with
              | some p => if p = "" then "Q1" else p
              | none => "Q1",
    scoreHome := match raw.scoreHome with
                 | .num n => n
                 | .other => homePts,
    scoreOpp := match raw.scoreOpp with
                | .num n => n
                | .other => oppPts,
    history := raw.history.getD [] }

/-- A parsed snapshot at store level (`oppRoster` may be missing). -/
structure RawStore where
  roster : Rosters
  oppRoster : Option Rosters
  games : List RawGame
deriving DecidableEq, Repr

/-- The migration part of `loadStore` on a successfully parsed snapshot:
synthesize the opponent-template field if missing (the blank replacement
rosters are a parameter, as they use `uid`) and normalize every game. -/
def migrateStore (s : RawStore) (blankOppTemplates : Rosters) : Store :=
  { roster := s.roster,
    oppRoster := s.oppRoster.getD blankOppTemplates,
    games := s.games.map migrateGame }

/-- `Math.round` on exact rationals: round half toward positive infinity. -/
def jsRound (q : ℚ) : ℤ :=
  ⌊q + 1 / 2⌋

/-- Decimal rendering of the JS number `r / 10` (with `r` a non-negative
integer): an integral value prints with no decimal point, otherwise one
decimal digit is printed. -/
def fmtTenths (r : ℤ) : String :=
  if r % 10 = 0 then toString (r / 10)
  else toString (r / 10) ++ "." ++ toString (r % 10)

/-- `function pct(made, att)`: empty when `att` is 0, otherwise
`Math.round((made / att) * 1000) / 10` rendered with a `%` suffix.  The
JS float arithmetic is modelled by exact rational arithmetic. -/
def pct (made att : Int) : String :=
  if att = 0 then ""
  else fmtTenths (jsRound ((made : ℚ) / (att : ℚ) * 1000)) ++ "%"

/-- The delta of the "+2" stat button (`{ pts: 2, fgm: 1, fga: 1 }`). -/
def deltaPlus2 : Delta :=
  { pts := some 2, fgm := some 1, fga := some 1 }

/-- The delta of the "TO" stat button (`{ to: 1 }`). -/
def deltaTO : Delta :=
  { to_ := some 1 }

/-- A concrete stat line used to instantiate theorems. -/
def sampleLine : Line :=
  { pts := 2, fgm := 1, fga := 1, tpm := 0, tpa := 0, ftm := 0, fta := 0,
    to_ := 0, pf := 0 }

/-- A concrete in-progress game used to instantiate theorems. -/
def sampleGame : Game :=
  { id := "g1", team := .girls, dateISO := "2026-01-01", opponent := "Hawks",
    location := "Home gym", notes := "",
    homeRosterIds := ["pA", "pB"],
    oppRoster := [{ id := "oA", no := "7", name := "O", ht := "", cls := "",
                    pos := "" }],
    linesHome := [("pA", sampleLine), ("pB", emptyLine)],
    linesOpp := [("oA", emptyLine)],
    undo := [], period := "Q1", scoreHome := 2, scoreOpp := 0,
    history := [] }

/-- A brand-new game: empty history and undo stack. -/
def freshGame : Game :=
  { id := "g0", team := .girls, dateISO := "2026-01-01", opponent := "",
    location := "", notes := "",
    homeRosterIds := ["pA"],
    oppRoster := [],
    linesHome := [("pA", emptyLine)],
    linesOpp := [],
    undo := [], period := "Q1", scoreHome := 0, scoreOpp := 0,
    history := [] }

/-- A game whose period label is the empty string (reachable through
`setPeriod`, which accepts any label). -/
def gameEmptyPeriod : Game :=
  { freshGame with period := "" }

/-- A concrete apply-event action used to instantiate theorems. -/
def sampleEv : EvArgs :=
  { side := .home, playerId := "pA", delta := deltaPlus2, label := "+2",
    historyId := "h1", now := 10 }

/-- A concrete store used to instantiate theorems. -/
def sampleStore : Store :=
  { roster :=
      { girls := [{ id := "pA", no := "4", name := "A", ht := "", cls := "",
                    pos := "" }],
        boys := [] },
    oppRoster :=
      { girls := [{ id := "opT1", no := "7", name := "T", ht := "5'9",
                    cls := "JR", pos := "G" }],
        boys := [] },
    games := [] }

/-- A concrete legacy persisted game: no stored scores, one stored home
line with points. -/
def sampleRawGame : RawGame :=
  { id := "g9", team := .girls, dateISO := "2025-12-01", opponent := "Old",
    location := "", notes := "",
    homeRosterIds := ["pA", "pB"],
    oppRoster := [{ id := "oA", no := "", name := "", ht := "", cls := "",
                    pos := "" }],
    linesHome := [("pA", { pts := .num 5, fgm := .num 2, fga := .num 4 })],
    linesOpp := [("oA", { pts := .num 3 })],
    undo := none, period := none, scoreHome := .other, scoreOpp := .other,
    history := none }

/-- The History Event constructed by one `applyDelta` call (step 3 of the
apply-event effect). -/
def mkHistoryEvent (g : Game) (s : Side) (pid : String) (δ : Delta)
    (lb hid : String) (now : Int) : HistoryEvent :=
  let scores := updScores g.scoreHome g.scoreOpp s (δ.pts.getD 0)
  { id := hid, at_ := now,
    period := if g.period = "" then "Q1" else g.period,
    side := s, playerId := pid, label := lb, delta := δ,
    homeScore := scores.1, oppScore := scores.2 }

/-- The Undo Action constructed by one `applyDelta` call (step 4 of the
apply-event effect). -/
def mkUndoAction (s : Side) (pid : String) (δ : Delta) (lb hid : String)
    (now : Int) : UndoAction :=
  { at_ := now, label := lb, side := s, playerId := pid, delta := δ,
    historyId := some hid }

theorem mem_STAT_KEYS (k : StatKey) : k ∈ STAT_KEYS := by
  cases k <;> simp [STAT_KEYS]

theorem clamp0_nonneg (n : Int) : 0 ≤ clamp0 n := by
  unfold clamp0
  split <;> omega

theorem clamp0_of_nonneg {n : Int} (h : 0 ≤ n) : clamp0 n = n := by
  unfold clamp0
  split <;> omega

theorem applyOne_nonneg {c : Int} (o : Option Int) (h : 0 ≤ c) :
    0 ≤ applyOne c o := by
  cases o with
  | none => exact h
  | some x => exact clamp0_nonneg _

theorem applyOne_neg_cancel {c : Int} {o : Option Int}
    (h : noClampOpt c o = true) :
    applyOne (applyOne c o) (o.map Neg.neg) = c := by
  cases o with
  | none => rfl
  | some x =>
    simp only [noClampOpt, Bool.and_eq_true, decide_eq_true_eq] at h
    simp only [applyOne, Option.map_some']
    rw [clamp0_of_nonneg h.2]
    have : c + x + -x = c := by ring
    rw [this, clamp0_of_nonneg h.1]

theorem noClampLine_key {cur : Line} {d : Delta}
    (h : noClampLine cur d = true) (k : StatKey) :
    noClampOpt (cur.get k) (d.get k) = true := by
  have := List.all_eq_true.mp h k (mem_STAT_KEYS k)
  simpa using this

theorem negDelta_get (d : Delta) (k : StatKey) :
    (negDelta d).get k = (d.get k).map Neg.neg := by
  cases k <;> rfl

theorem applyDeltaLine_get (cur : Line) (d : Delta) (k : StatKey) :
    (applyDeltaLine cur d).get k = applyOne (cur.get k) (d.get k) := by
  cases k <;> rfl

/-- Applying a delta and then its exact negation gives back the original
line, provided no clamp fires in either direction. -/
theorem applyDeltaLine_neg_cancel {cur : Line} {d : Delta}
    (h : noClampLine cur d = true) :
    applyDeltaLine (applyDeltaLine cur d) (negDelta d) = cur := by
  have hk : ∀ k, noClampOpt (cur.get k) (d.get k) = true := noClampLine_key h
  cases cur
  simp only [applyDeltaLine, negDelta, Line.mk.injEq]
  refine ⟨?_, ?_, ?_, ?_, ?_, ?_, ?_, ?_, ?_⟩
  · exact applyOne_neg_cancel (hk .pts)
  · exact applyOne_neg_cancel (hk .fgm)
  · exact applyOne_neg_cancel (hk .fga)
  · exact applyOne_neg_cancel (hk .tpm)
  · exact applyOne_neg_cancel (hk .tpa)
  · exact applyOne_neg_cancel (hk .ftm)
  · exact applyOne_neg_cancel (hk .fta)
  · exact applyOne_neg_cancel (hk .to)
  · exact applyOne_neg_cancel (hk .pf)

theorem LineNonNeg_applyDeltaLine {l : Line} (d : Delta)
    (h : LineNonNeg l) : LineNonNeg (applyDeltaLine l d) := by
  obtain ⟨h1, h2, h3, h4, h5, h6, h7, h8, h9⟩ := h
  exact ⟨applyOne_nonneg _ h1, applyOne_nonneg _ h2, applyOne_nonneg _ h3,
    applyOne_nonneg _ h4, applyOne_nonneg _ h5, applyOne_nonneg _ h6,
    applyOne_nonneg _ h7, applyOne_nonneg _ h8, applyOne_nonneg _ h9⟩

theorem emptyLine_nonneg : LineNonNeg emptyLine := by
  decide

theorem negDelta_pts_getD (d : Delta) :
    (negDelta d).pts.getD 0 = -(d.pts.getD 0) := by
  cases h : d.pts <;> simp [negDelta, h]

theorem lookupLine_mem {m : LinesMap} {id : String} {l : Line}
    (h : lookupLine m id = some l) : (id, l) ∈ m := by
  induction m with
  | nil => simp [lookupLine] at h
  | cons p rest ih =>
    obtain ⟨k, v⟩ := p
    by_cases hk : k = id
    · subst hk
      simp [lookupLine] at h
      subst h
      exact List.mem_cons_self _ _
    · simp [lookupLine, hk] at h
      exact List.mem_cons_of_mem _ (ih h)

theorem LineNonNeg_getLine {m : LinesMap} (id : String)
    (h : LinesNonNeg m) : LineNonNeg (getLine m id) := by
  unfold getLine
  cases hl : lookupLine m id with
  | none => exact emptyLine_nonneg
  | some l => exact h _ (lookupLine_mem hl)

theorem lookupLine_map_replace {m : LinesMap} {id : String} (l : Line)
    (h : m.any (fun p => p.1 = id) = true) :
    lookupLine (m.map (fun p => if p.1 = id then (id, l) else p)) id =
      some l := by
  induction m with
  | nil => simp at h
  | cons p rest ih =>
    obtain ⟨k, v⟩ := p
    rw [List.any_cons, Bool.or_eq_true] at h
    by_cases hk : k = id
    · subst hk
      have hhead : (if ((k, v) : String × Line).1 = k then
          ((k, l) : String × Line) else (k, v)) = (k, l) := by simp
      rw [List.map_cons, hhead]
      simp [lookupLine]
    · have hrest : rest.any (fun p => p.1 = id) = true := by
        rcases h with h | h
        · exact absurd (by simpa using h) hk
        · exact h
      have hhead : (if ((k, v) : String × Line).1 = id then
          ((id, l) : String × Line) else (k, v)) = (k, v) := by simp [hk]
      rw [List.map_cons, hhead]
      simp only [lookupLine, if_neg hk]
      exact ih hrest

theorem lookupLine_append_right {m : LinesMap} {id : String}
    (h : lookupLine m id = none) (rest : LinesMap) :
    lookupLine (m ++ rest) id = lookupLine rest id := by
  induction m with
  | nil => rfl
  | cons p t ih =>
    obtain ⟨k, v⟩ := p
    by_cases hk : k = id
    · simp [lookupLine, hk] at h
    · simp only [lookupLine, hk, if_false] at h ⊢
      exact ih h

theorem lookupLine_eq_none_of_not_any {m : LinesMap} {id : String}
    (h : m.any (fun p => p.1 = id) = false) : lookupLine m id = none := by
  induction m with
  | nil => rfl
  | cons p t ih =>
    obtain ⟨k, v⟩ := p
    rw [List.any_cons, Bool.or_eq_false_iff] at h
    have hk : ¬(k = id) := by simpa using h.1
    simp only [lookupLine, if_neg hk]
    exact ih h.2

/-- Reading back the key just written by the spread update. -/
theorem lookupLine_setLine_self (m : LinesMap) (id : String) (l : Line) :
    lookupLine (setLine m id l) id = some l := by
  unfold setLine
  by_cases h : m.any (fun p => p.1 = id) = true
  · simp only [h, if_true]
    exact lookupLine_map_replace l h
  · have hf : m.any (fun p => p.1 = id) = false :=
      Bool.eq_false_iff.mpr h
    simp only [hf, Bool.false_eq_true, if_false]
    rw [lookupLine_append_right (lookupLine_eq_none_of_not_any hf)]
    simp [lookupLine]

theorem getLine_setLine_self (m : LinesMap) (id : String) (l : Line) :
    getLine (setLine m id l) id = l := by
  unfold getLine
  rw [lookupLine_setLine_self]
  rfl

theorem setLine_mem {m : LinesMap} {id : String} {l : Line} {e}
    (h : e ∈ setLine m id l) : e = (id, l) ∨ e ∈ m := by
  unfold setLine at h
  split at h
  · obtain ⟨p, hp, he⟩ := List.mem_map.mp h
    by_cases hk : p.1 = id
    · simp only [hk, if_true] at he
      exact Or.inl he.symm
    · simp only [hk, if_false] at he
      exact Or.inr (he ▸ hp)
  · rcases List.mem_append.mp h with h | h
    · exact Or.inr h
    · simp at h
      exact Or.inl h

theorem LinesNonNeg_setLine {m : LinesMap} {id : String} {l : Line}
    (hm : LinesNonNeg m) (hl : LineNonNeg l) :
    LinesNonNeg (setLine m id l) := by
  intro e he
  rcases setLine_mem he with h | h
  · rw [h]
    exact hl
  · exact hm _ h

theorem updScores_nonneg {sh so : Int} (s : Side) (pd : Int)
    (h1 : 0 ≤ sh) (h2 : 0 ≤ so) :
    0 ≤ (updScores sh so s pd).1 ∧ 0 ≤ (updScores sh so s pd).2 := by
  unfold updScores
  split
  · exact ⟨h1, h2⟩
  · cases s
    · exact ⟨clamp0_nonneg _, h2⟩
    · exact ⟨h1, clamp0_nonneg _⟩

/-- Un-applying a points delta restores both scores, provided the touched
score was ≥ 0 before and after the forward update (no clamp fired). -/
theorem updScores_cancel {sh so : Int} {s : Side} {pd : Int}
    (h : pd ≠ 0 → 0 ≤ (match s with | Side.home => sh | Side.opp => so) ∧
      0 ≤ (match s with | Side.home => sh | Side.opp => so) + pd) :
    updScores (updScores sh so s pd).1 (updScores sh so s pd).2 s (-pd) =
      (sh, so) := by
  by_cases hpd : pd = 0
  · subst hpd
    simp [updScores]
  · obtain ⟨h0, h1⟩ := h hpd
    have hneg : ¬(-pd = 0) := by omega
    cases s with
    | home =>
      have h0' : 0 ≤ sh := h0
      have h1' : 0 ≤ sh + pd := h1
      simp only [updScores, if_neg hpd, if_neg hneg]
      rw [clamp0_of_nonneg h1']
      have hc : sh + pd + -pd = sh := by ring
      rw [hc, clamp0_of_nonneg h0']
    | opp =>
      have h0' : 0 ≤ so := h0
      have h1' : 0 ≤ so + pd := h1
      simp only [updScores, if_neg hpd, if_neg hneg]
      rw [clamp0_of_nonneg h1']
      have hc : so + pd + -pd = so := by ring
      rw [hc, clamp0_of_nonneg h0']

/-- `applyDelta` written out as one record expression. -/
theorem applyDelta_eq (g : Game) (s : Side) (pid : String) (δ : Delta)
    (lb hid : String) (now : Int) :
    applyDelta g s pid δ lb hid now =
      { setSideLines g s
          (setLine (sideLines g s) pid
            (applyDeltaLine (getLine (sideLines g s) pid) δ)) with
        undo := (mkUndoAction s pid δ lb hid now :: g.undo).take 300,
        scoreHome := (updScores g.scoreHome g.scoreOpp s (δ.pts.getD 0)).1,
        scoreOpp := (updScores g.scoreHome g.scoreOpp s (δ.pts.getD 0)).2,
        history :=
          (mkHistoryEvent g s pid δ lb hid now :: g.history).take 500 } :=
  rfl

/-- `undoLast` on a game whose undo stack is non-empty, written out as one
record expression. -/
theorem undoLast_game_of_undo_cons {g : Game} {last : UndoAction}
    {rest : List UndoAction} (h : g.undo = last :: rest) :
    (undoLast g).game =
      { setSideLines g last.side
          (setLine (sideLines g last.side) last.playerId
            (applyDeltaLine (getLine (sideLines g last.side) last.playerId)
              (negDelta last.delta))) with
        undo := rest,
        scoreHome := (updScores g.scoreHome g.scoreOpp last.side
          ((negDelta last.delta).pts.getD 0)).1,
        scoreOpp := (updScores g.scoreHome g.scoreOpp last.side
          ((negDelta last.delta).pts.getD 0)).2,
        history :=
          match last.historyId with
          | none => g.history
          | some hid =>
            if hid = "" then g.history
            else
              match g.history with
              | [] => []
              | h :: t =>
                if h.id = hid then t
                else List.filter (fun e => e.id != hid) (h :: t) } := by
  unfold undoLast
  rw [h]

theorem GameNonNeg_applyDelta {g : Game} (s : Side) (pid : String)
    (δ : Delta) (lb hid : String) (now : Int) (h : GameNonNeg g) :
    GameNonNeg (applyDelta g s pid δ lb hid now) := by
  obtain ⟨hH, hO, hsh, hso⟩ := h
  rw [applyDelta_eq]
  cases s with
  | home =>
    refine ⟨?_, ?_, ?_, ?_⟩
    · exact LinesNonNeg_setLine hH
        (LineNonNeg_applyDeltaLine _ (LineNonNeg_getLine _ hH))
    · exact hO
    · exact (updScores_nonneg _ _ hsh hso).1
    · exact (updScores_nonneg _ _ hsh hso).2
  | opp =>
    refine ⟨?_, ?_, ?_, ?_⟩
    · exact hH
    · exact LinesNonNeg_setLine hO
        (LineNonNeg_applyDeltaLine _ (LineNonNeg_getLine _ hO))
    · exact (updScores_nonneg _ _ hsh hso).1
    · exact (updScores_nonneg _ _ hsh hso).2

theorem GameNonNeg_undoLast {g : Game} (h : GameNonNeg g) :
    GameNonNeg (undoLast g).game := by
  cases hu : g.undo with
  | nil =>
    have hsame : (undoLast g).game = g := by
      unfold undoLast
      rw [hu]
    rw [hsame]
    exact h
  | cons last rest =>
    obtain ⟨hH, hO, hsh, hso⟩ := h
    rw [undoLast_game_of_undo_cons hu]
    cases hs : last.side with
    | home =>
      refine ⟨?_, ?_, ?_, ?_⟩
      · exact LinesNonNeg_setLine hH
          (LineNonNeg_applyDeltaLine _ (LineNonNeg_getLine _ hH))
      · exact hO
      · exact (updScores_nonneg _ _ hsh hso).1
      · exact (updScores_nonneg _ _ hsh hso).2
    | opp =>
      refine ⟨?_, ?_, ?_, ?_⟩
      · exact hH
      · exact LinesNonNeg_setLine hO
          (LineNonNeg_applyDeltaLine _ (LineNonNeg_getLine _ hO))
      · exact (updScores_nonneg _ _ hsh hso).1
      · exact (updScores_nonneg _ _ hsh hso).2

theorem GameNonNeg_stepOp {g : Game} (op : Op) (h : GameNonNeg g) :
    GameNonNeg (stepOp g op) := by
  cases op with
  | ev a => exact GameNonNeg_applyDelta _ _ _ _ _ _ h
  | undoOp => exact GameNonNeg_undoLast h

theorem GameNonNeg_runOps {g : Game} (ops : List Op) (h : GameNonNeg g) :
    GameNonNeg (runOps g ops) := by
  induction ops generalizing g with
  | nil => exact h
  | cons o t ih => exact ih (GameNonNeg_stepOp o h)

theorem applyEv_history_length (g : Game) (a : EvArgs) :
    (applyEv g a).history.length = min (g.history.length + 1) 500 := by
  show ((mkHistoryEvent g a.side a.playerId a.delta a.label a.historyId
      a.now :: g.history).take 500).length = _
  rw [List.length_take, List.length_cons]
  omega

theorem applyEv_undo_length (g : Game) (a : EvArgs) :
    (applyEv g a).undo.length = min (g.undo.length + 1) 300 := by
  show ((mkUndoAction a.side a.playerId a.delta a.label a.historyId
      a.now :: g.undo).take 300).length = _
  rw [List.length_take, List.length_cons]
  omega

theorem applyMany_lengths (ps : List EvArgs) :
    ∀ g : Game, g.history.length ≤ 500 → g.undo.length ≤ 300 →
      (applyMany g ps).history.length =
        min (g.history.length + ps.length) 500 ∧
      (applyMany g ps).undo.length =
        min (g.undo.length + ps.length) 300 := by
  induction ps with
  | nil =>
    intro g hh hu
    constructor
    · show g.history.length = min (g.history.length + 0) 500
      omega
    · show g.undo.length = min (g.undo.length + 0) 300
      omega
  | cons a t ih =>
    intro g hh hu
    have hstep : applyMany g (a :: t) = applyMany (applyEv g a) t := rfl
    obtain ⟨ih1, ih2⟩ := ih (applyEv g a)
      (by rw [applyEv_history_length]; omega)
      (by rw [applyEv_undo_length]; omega)
    rw [hstep]
    constructor
    · rw [ih1, applyEv_history_length, List.length_cons]
      omega
    · rw [ih2, applyEv_undo_length, List.length_cons]
      omega

/-- Claim C4: for every active game, `clearGameStats` zeroes every home and
opponent roster line, resets both scores to 0, empties history and undo,
and resets the period to "Q1" (the first entry of the period sequence),
while leaving roster membership, date, opponent name, location and notes
unchanged. -/
theorem clearGameStats_spec (g : Game) :
    (clearGameStats g).linesHome =
      g.homeRosterIds.map (fun id => (id, emptyLine)) ∧
    (clearGameStats g).linesOpp =
      g.oppRoster.map (fun p => (p.id, emptyLine)) ∧
    (clearGameStats g).scoreHome = 0 ∧
    (clearGameStats g).scoreOpp = 0 ∧
    (clearGameStats g).history = [] ∧
    (clearGameStats g).undo = [] ∧
    (clearGameStats g).period = "Q1" ∧
    PERIODS.head? = some "Q1" ∧
    (clearGameStats g).homeRosterIds = g.homeRosterIds ∧
    (clearGameStats g).oppRoster = g.oppRoster ∧
    (clearGameStats g).dateISO = g.dateISO ∧
    (clearGameStats g).opponent = g.opponent ∧
    (clearGameStats g).location = g.location ∧
    (clearGameStats g).notes = g.notes :=
  ⟨rfl, rfl, rfl, rfl, rfl, rfl, rfl, rfl, rfl, rfl, rfl, rfl, rfl, rfl⟩

/-- Claim C7: `undoLast` on a game with an empty undo stack reports the
"Nothing to undo" notice and returns the game completely unchanged. -/
theorem undoLast_empty_noop (g : Game) (h : g.undo = []) :
    undoLast g = { game := g, toast := "Nothing to undo" } := by
  unfold undoLast
  rw [h]

theorem undoLast_empty_noop_witness :
    sampleGame.undo = [] ∧
    undoLast sampleGame = { game := sampleGame, toast := "Nothing to undo" } :=
  ⟨rfl, undoLast_empty_noop sampleGame rfl⟩

/-- Claim C8 (counterexample): the empty period label is not a member of
the period sequence, yet `nextPeriod` advances it to "Q2", not to the
first entry "Q1" as the claim states (the source first replaces a falsy
period with "Q1" via `activeGame.period || "Q1"`). -/
theorem nextPeriod_counterexample :
    gameEmptyPeriod.period ∉ PERIODS ∧
    (nextPeriod gameEmptyPeriod).period = "Q2" ∧
    ¬((nextPeriod gameEmptyPeriod).period = "Q1") := by
  refine ⟨by decide, by decide, by decide⟩

theorem nextPeriod_period_eq (g : Game) :
    (nextPeriod g).period =
      PERIODS.getD
        (min ((PERIODS.length : Int) - 1)
          (jsIndexOf (if g.period = "" then "Q1" else g.period) PERIODS
            + 1)).toNat "" :=
  rfl

/-- Claim C8 (amended): `advancePeriod` steps Q1→Q2→Q3→Q4→OT and stays at
OT; a non-member label other than the empty string resets to the first
entry "Q1"; the empty label is first replaced by "Q1" (JS falsiness) and
therefore advances to "Q2". -/
theorem nextPeriod_spec (g : Game) :
    (g.period = "Q1" → (nextPeriod g).period = "Q2") ∧
    (g.period = "Q2" → (nextPeriod g).period = "Q3") ∧
    (g.period = "Q3" → (nextPeriod g).period = "Q4") ∧
    (g.period = "Q4" → (nextPeriod g).period = "OT") ∧
    (g.period = "OT" → (nextPeriod g).period = "OT") ∧
    (g.period ∉ PERIODS → g.period ≠ "" → (nextPeriod g).period = "Q1") ∧
    (g.period = "" → (nextPeriod g).period = "Q2") := by
  refine ⟨?_, ?_, ?_, ?_, ?_, ?_, ?_⟩
  · intro h
    rw [nextPeriod_period_eq, h]
    decide
  · intro h
    rw [nextPeriod_period_eq, h]
    decide
  · intro h
    rw [nextPeriod_period_eq, h]
    decide
  · intro h
    rw [nextPeriod_period_eq, h]
    decide
  · intro h
    rw [nextPeriod_period_eq, h]
    decide
  · intro h1 h2
    rw [nextPeriod_period_eq, if_neg h2]
    simp only [PERIODS, List.mem_cons, List.not_mem_nil, or_false,
      not_or] at h1
    obtain ⟨n1, n2, n3, n4, n5⟩ := h1
    have hidx : jsIndexOf g.period PERIODS = -1 := by
      simp [jsIndexOf, PERIODS, Ne.symm n1, Ne.symm n2, Ne.symm n3,
        Ne.symm n4, Ne.symm n5]
    rw [hidx]
    decide
  · intro h
    rw [nextPeriod_period_eq, h]
    decide

theorem nextPeriod_spec_witness :
    freshGame.period = "Q1" ∧ (nextPeriod freshGame).period = "Q2" :=
  ⟨rfl, (nextPeriod_spec freshGame).1 rfl⟩

/-- Claim C9: `pct` returns "" when attempted is 0; otherwise the ratio
times 1000, rounded to the nearest integer, divided by 10, rendered with a
"%" suffix; in particular 2 made of 3 attempted gives "66.7%". -/
theorem pct_spec (made att : Int) (_hm : 0 ≤ made) (_ha : 0 ≤ att) :
    (att = 0 → pct made att = "") ∧
    (att ≠ 0 →
      pct made att =
        fmtTenths (jsRound ((made : ℚ) / (att : ℚ) * 1000)) ++ "%") ∧
    pct 2 3 = "66.7%" := by
  refine ⟨fun h => ?_, fun h => ?_, ?_⟩
  · simp [pct, h]
  · simp [pct, h]
  · have h667 : jsRound ((2 : ℚ) / 3 * 1000) = 667 := by
      norm_num [jsRound]
    have hp : pct 2 3 = fmtTenths (jsRound ((2 : ℚ) / 3 * 1000)) ++ "%" := by
      norm_num [pct]
    rw [hp, h667]
    decide

theorem pct_spec_witness :
    (0 : Int) ≤ 2 ∧ (0 : Int) ≤ 3 ∧ pct 2 3 = "66.7%" :=
  ⟨by decide, by decide, (pct_spec 2 3 (by decide) (by decide)).2.2⟩

/-- Claim C10: applying an event to a player id absent from the target
side's line mapping is total: the missing line is treated as the all-zero
line, the delta is applied to it, and an entry for that id appears in the
mapping afterwards. -/
theorem applyDelta_missing_line (g : Game) (s : Side) (pid : String)
    (δ : Delta) (lb hid : String) (now : Int)
    (h : lookupLine (sideLines g s) pid = none) :
    lookupLine (sideLines (applyDelta g s pid δ lb hid now) s) pid =
      some (applyDeltaLine emptyLine δ) := by
  have hside : sideLines (applyDelta g s pid δ lb hid now) s =
      setLine (sideLines g s) pid
        (applyDeltaLine (getLine (sideLines g s) pid) δ) := by
    rw [applyDelta_eq]
    cases s <;> rfl
  have hget : getLine (sideLines g s) pid = emptyLine := by
    unfold getLine
    rw [h]
    rfl
  rw [hside, lookupLine_setLine_self, hget]

theorem applyDelta_missing_line_witness :
    lookupLine (sideLines sampleGame .home) "zz" = none ∧
    lookupLine
        (sideLines (applyDelta sampleGame .home "zz" deltaTO "TO" "h9" 5)
          .home) "zz" =
      some (applyDeltaLine emptyLine deltaTO) :=
  ⟨by decide,
    applyDelta_missing_line sampleGame .home "zz" deltaTO "TO" "h9" 5
      (by decide)⟩

/-- Claim C2: from any game state whose lines and scores are non-negative,
every sequence of apply-event and undo-last operations keeps every stat
value of every player's line and both scores ≥ 0; a present delta key is
always written (clamped at 0), never rejected. -/
theorem nonneg_invariant (g : Game) (h : GameNonNeg g) :
    (∀ ops : List Op, GameNonNeg (runOps g ops)) ∧
    (∀ (s : Side) (pid : String) (δ : Delta) (lb hid : String) (now : Int)
        (k : StatKey) (d : Int), δ.get k = some d →
      (getLine (sideLines (applyDelta g s pid δ lb hid now) s) pid).get k =
        clamp0 ((getLine (sideLines g s) pid).get k + d)) := by
  constructor
  · intro ops
    exact GameNonNeg_runOps ops h
  · intro s pid δ lb hid now k d hd
    have hside : sideLines (applyDelta g s pid δ lb hid now) s =
        setLine (sideLines g s) pid
          (applyDeltaLine (getLine (sideLines g s) pid) δ) := by
      rw [applyDelta_eq]
      cases s <;> rfl
    rw [hside, getLine_setLine_self, applyDeltaLine_get, hd]
    rfl

theorem nonneg_invariant_witness :
    GameNonNeg sampleGame ∧
    GameNonNeg (runOps sampleGame [Op.ev sampleEv, Op.undoOp]) :=
  ⟨by decide, (nonneg_invariant sampleGame (by decide)).1 _⟩

/-- Claim C3: after every apply-event the history holds at most the 500
most recent entries and the undo stack at most the 300 most recent (a
prefix of the new entry prepended to the previous list, oldest dropped
from the tail); starting from a fresh game, n applied events leave exactly
min n 500 history entries and min n 300 undo entries — so 501 events give
exactly 500 and 301 events give exactly 300. -/
theorem history_undo_bounds (g : Game) (ps : List EvArgs)
    (hh : g.history = []) (hu : g.undo = []) :
    ((applyMany g ps).history.length = min ps.length 500 ∧
     (applyMany g ps).undo.length = min ps.length 300) ∧
    (∀ (g' : Game) (a : EvArgs),
      (applyEv g' a).history.length ≤ 500 ∧
      (applyEv g' a).undo.length ≤ 300 ∧
      (applyEv g' a).history <+:
        (mkHistoryEvent g' a.side a.playerId a.delta a.label a.historyId
          a.now :: g'.history) ∧
      (applyEv g' a).undo <+:
        (mkUndoAction a.side a.playerId a.delta a.label a.historyId
          a.now :: g'.undo)) := by
  constructor
  · have hx := applyMany_lengths ps g (by rw [hh]; simp) (by rw [hu]; simp)
    rw [hh, hu] at hx
    simpa using hx
  · intro g' a
    refine ⟨?_, ?_, ?_, ?_⟩
    · rw [applyEv_history_length]
      omega
    · rw [applyEv_undo_length]
      omega
    · exact ⟨_, List.take_append_drop 500 _⟩
    · exact ⟨_, List.take_append_drop 300 _⟩

theorem history_undo_bounds_witness :
    freshGame.history = [] ∧ freshGame.undo = [] ∧
    (applyMany freshGame (List.replicate 501 sampleEv)).history.length
      = 500 ∧
    (applyMany freshGame (List.replicate 301 sampleEv)).undo.length
      = 300 := by
  refine ⟨rfl, rfl, ?_, ?_⟩
  · have h :=
      (history_undo_bounds freshGame (List.replicate 501 sampleEv) rfl
        rfl).1.1
    rw [h, List.length_replicate]
    omega
  · have h :=
      (history_undo_bounds freshGame (List.replicate 301 sampleEv) rfl
        rfl).1.2
    rw [h, List.length_replicate]
    omega

theorem migrateGame_scoreHome_eq (raw : RawGame) :
    (migrateGame raw).scoreHome =
      match raw.scoreHome with
      | RawNum.num n => n
      | RawNum.other =>
        (sumLines (migrateGame raw).linesHome
          (migrateGame raw).homeRosterIds).pts :=
  rfl

theorem migrateGame_scoreOpp_eq (raw : RawGame) :
    (migrateGame raw).scoreOpp =
      match raw.scoreOpp with
      | RawNum.num n => n
      | RawNum.other =>
        (sumLines (migrateGame raw).linesOpp
          ((migrateGame raw).oppRoster.map (fun p => p.id))).pts :=
  rfl

/-- Claim C6: when a persisted game's `scoreHome` (resp. `scoreOpp`) is
absent or not a number, loading yields a score equal to the pts-sum of the
normalized home-side (resp. opponent-side) lines over that side's roster
ids; a stored numeric score is kept unchanged. -/
theorem loadStore_score_derivation (raw : RawGame) :
    (raw.scoreHome = RawNum.other →
      (migrateGame raw).scoreHome =
        (sumLines (migrateGame raw).linesHome
          (migrateGame raw).homeRosterIds).pts) ∧
    (∀ n, raw.scoreHome = RawNum.num n →
      (migrateGame raw).scoreHome = n) ∧
    (raw.scoreOpp = RawNum.other →
      (migrateGame raw).scoreOpp =
        (sumLines (migrateGame raw).linesOpp
          ((migrateGame raw).oppRoster.map (fun p => p.id))).pts) ∧
    (∀ n, raw.scoreOpp = RawNum.num n →
      (migrateGame raw).scoreOpp = n) := by
  refine ⟨fun h => ?_, fun n h => ?_, fun h => ?_, fun n h => ?_⟩
  · rw [migrateGame_scoreHome_eq, h]
  · rw [migrateGame_scoreHome_eq, h]
  · rw [migrateGame_scoreOpp_eq, h]
  · rw [migrateGame_scoreOpp_eq, h]

theorem loadStore_score_derivation_witness :
    sampleRawGame.scoreHome = RawNum.other ∧
    (migrateGame sampleRawGame).scoreHome =
      (sumLines (migrateGame sampleRawGame).linesHome
        (migrateGame sampleRawGame).homeRosterIds).pts ∧
    (migrateGame sampleRawGame).scoreHome = 5 ∧
    (migrateGame sampleRawGame).scoreOpp = 3 :=
  ⟨rfl, (loadStore_score_derivation sampleRawGame).1 rfl, by decide,
    by decide⟩

theorem clone_map_id {tmpl : List Player} {freshIds : List String}
    (h : freshIds.length = tmpl.length) :
    (cloneRosterWithNewIds tmpl freshIds).map (fun p => p.id) = freshIds := by
  induction tmpl generalizing freshIds with
  | nil =>
    cases freshIds with
    | nil => rfl
    | cons i it => simp at h
  | cons p t ih =>
    cases freshIds with
    | nil => simp at h
    | cons i it =>
      simp only [List.length_cons] at h
      simp only [cloneRosterWithNewIds, List.zip_cons_cons, List.map_cons]
      exact congrArg (i :: ·) (ih (by omega))

theorem clone_map_name {tmpl : List Player} {freshIds : List String}
    (h : freshIds.length = tmpl.length) :
    (cloneRosterWithNewIds tmpl freshIds).map (fun p => p.name) =
      tmpl.map (fun p => p.name) := by
  induction tmpl generalizing freshIds with
  | nil =>
    cases freshIds with
    | nil => rfl
    | cons i it => simp at h
  | cons p t ih =>
    cases freshIds with
    | nil => simp at h
    | cons i it =>
      simp only [List.length_cons] at h
      simp only [cloneRosterWithNewIds, List.zip_cons_cons, List.map_cons]
      exact congrArg (p.name :: ·) (ih (by omega))

theorem clone_mem_id {tmpl : List Player} {freshIds : List String}
    {p : Player} (hp : p ∈ cloneRosterWithNewIds tmpl freshIds) :
    p.id ∈ freshIds := by
  obtain ⟨pi, hpi, hpe⟩ := List.mem_map.mp hp
  have hzip := List.of_mem_zip hpi
  rw [← hpe]
  exact hzip.2

theorem lookupLine_map_const_of_mem {ids : List String} {i : String}
    (h : i ∈ ids) :
    lookupLine (ids.map (fun j => (j, emptyLine))) i = some emptyLine := by
  induction ids with
  | nil => simp at h
  | cons a t ih =>
    by_cases ha : a = i
    · simp only [List.map_cons, lookupLine, if_pos ha]
    · simp only [List.map_cons, lookupLine, if_neg ha]
      rcases List.mem_cons.mp h with h | h
      · exact absurd h.symm ha
      · exact ih h

theorem lookupLine_map_pid_const_of_mem {players : List Player} {p : Player}
    (h : p ∈ players) :
    lookupLine (players.map (fun q => (q.id, emptyLine))) p.id =
      some emptyLine := by
  induction players with
  | nil => simp at h
  | cons a t ih =>
    by_cases ha : a.id = p.id
    · simp only [List.map_cons, lookupLine, if_pos ha]
    · simp only [List.map_cons, lookupLine, if_neg ha]
      rcases List.mem_cons.mp h with h | h
      · exact absurd (congrArg Player.id h.symm) ha
      · exact ih h

/-- Claim C5: a newly created game carries an opponent roster cloned from
the template with freshly generated ids (none of them a template id, and
other fields copied), zero lines for every id on both sides, period "Q1"
(the first period entry), scores 0-0, empty history and undo; the game is
prepended to the store's game list, and a later template edit leaves the
stored games untouched. -/
theorem ensureGame_spec (s : Store) (team : TeamKey)
    (freshIds : List String) (gid dateISO : String)
    (hlen : freshIds.length = (s.oppRoster.get team).length)
    (hfresh : ∀ i ∈ freshIds,
      i ∉ (s.oppRoster.get team).map (fun p => p.id)) :
    ((ensureGame s team freshIds gid dateISO).2.oppRoster.map
        (fun p => p.id) = freshIds) ∧
    (∀ p ∈ (ensureGame s team freshIds gid dateISO).2.oppRoster,
      p.id ∉ (s.oppRoster.get team).map (fun q => q.id)) ∧
    ((ensureGame s team freshIds gid dateISO).2.oppRoster.map
        (fun p => p.name) = (s.oppRoster.get team).map (fun p => p.name)) ∧
    (∀ i ∈ (ensureGame s team freshIds gid dateISO).2.homeRosterIds,
      lookupLine (ensureGame s team freshIds gid dateISO).2.linesHome i =
        some emptyLine) ∧
    (∀ p ∈ (ensureGame s team freshIds gid dateISO).2.oppRoster,
      lookupLine (ensureGame s team freshIds gid dateISO).2.linesOpp p.id =
        some emptyLine) ∧
    (ensureGame s team freshIds gid dateISO).2.period = "Q1" ∧
    PERIODS.head? = some "Q1" ∧
    (ensureGame s team freshIds gid dateISO).2.scoreHome = 0 ∧
    (ensureGame s team freshIds gid dateISO).2.scoreOpp = 0 ∧
    (ensureGame s team freshIds gid dateISO).2.history = [] ∧
    (ensureGame s team freshIds gid dateISO).2.undo = [] ∧
    ((ensureGame s team freshIds gid dateISO).1.games =
      (ensureGame s team freshIds gid dateISO).2 :: s.games) ∧
    (∀ next,
      (setOppTemplate (ensureGame s team freshIds gid dateISO).1 team
        next).games = (ensureGame s team freshIds gid dateISO).1.games) := by
  refine ⟨clone_map_id hlen, ?_, clone_map_name hlen, ?_, ?_, rfl, rfl,
    rfl, rfl, rfl, rfl, rfl, ?_⟩
  · intro p hp
    exact hfresh p.id (clone_mem_id hp)
  · intro i hi
    exact lookupLine_map_const_of_mem hi
  · intro p hp
    exact lookupLine_map_pid_const_of_mem hp
  · intro next
    cases team <;> rfl

theorem ensureGame_spec_witness :
    (["op1"] : List String).length =
      (sampleStore.oppRoster.get .girls).length ∧
    (∀ i ∈ (["op1"] : List String),
      i ∉ (sampleStore.oppRoster.get .girls).map (fun p => p.id)) ∧
    (ensureGame sampleStore .girls ["op1"] "g2" "2026-02-02").2.oppRoster.map
      (fun p => p.id) = ["op1"] := by
  have h := ensureGame_spec sampleStore .girls ["op1"] "g2" "2026-02-02"
    (by decide) (by decide)
  exact ⟨by decide, by decide, h.1⟩

/-- Claim C1: applying a delta to a player and then undoing it, when no
clamp fires in either direction on the line or on the touched score,
restores the player's line and both scores exactly, pops exactly the one
undo action just pushed, and removes exactly the one history entry whose
id matches that action's historyId. -/
theorem undo_reverses_applyDelta
    (g : Game) (sideKey : Side) (pid : String) (delta : Delta)
    (label hid : String) (now : Int)
    (hhid : hid ≠ "")
    (hfresh : ∀ e ∈ g.history, e.id ≠ hid)
    (hline : noClampLine (getLine (sideLines g sideKey) pid) delta = true)
    (hscore : delta.pts.getD 0 ≠ 0 →
      0 ≤ sideScore g sideKey ∧
      0 ≤ sideScore g sideKey + delta.pts.getD 0) :
    let g1 := applyDelta g sideKey pid delta label hid now
    let g2 := (undoLast g1).game
    getLine (sideLines g2 sideKey) pid = getLine (sideLines g sideKey) pid ∧
    g2.scoreHome = g.scoreHome ∧
    g2.scoreOpp = g.scoreOpp ∧
    g2.undo = g1.undo.tail ∧
    (∃ u, g1.undo.head? = some u ∧ u.historyId = some hid) ∧
    g2.history = g1.history.tail ∧
    (∃ e, g1.history.head? = some e ∧ e.id = hid) ∧
    (∀ e ∈ g2.history, e.id ≠ hid) := by
  intro g1 g2
  have hg1undo : g1.undo =
      mkUndoAction sideKey pid delta label hid now :: g.undo.take 299 := by
    show (applyDelta g sideKey pid delta label hid now).undo = _
    rw [applyDelta_eq]
    rfl
  have hg1hist : g1.history =
      mkHistoryEvent g sideKey pid delta label hid now ::
        g.history.take 499 := by
    show (applyDelta g sideKey pid delta label hid now).history = _
    rw [applyDelta_eq]
    rfl
  have hg2eq := undoLast_game_of_undo_cons hg1undo
  have hside1 : sideLines g1 sideKey =
      setLine (sideLines g sideKey) pid
        (applyDeltaLine (getLine (sideLines g sideKey) pid) delta) := by
    show sideLines (applyDelta g sideKey pid delta label hid now) sideKey = _
    rw [applyDelta_eq]
    cases sideKey <;> rfl
  have hside2 : sideLines g2 sideKey =
      setLine (sideLines g1 sideKey) pid
        (applyDeltaLine (getLine (sideLines g1 sideKey) pid)
          (negDelta delta)) := by
    show sideLines (undoLast g1).game sideKey = _
    rw [hg2eq]
    cases sideKey <;> rfl
  have hsc1H : g1.scoreHome =
      (updScores g.scoreHome g.scoreOpp sideKey (delta.pts.getD 0)).1 := by
    show (applyDelta g sideKey pid delta label hid now).scoreHome = _
    rw [applyDelta_eq]
  have hsc1O : g1.scoreOpp =
      (updScores g.scoreHome g.scoreOpp sideKey (delta.pts.getD 0)).2 := by
    show (applyDelta g sideKey pid delta label hid now).scoreOpp = _
    rw [applyDelta_eq]
  have hg2H : g2.scoreHome =
      (updScores g1.scoreHome g1.scoreOpp sideKey
        ((negDelta delta).pts.getD 0)).1 := by
    show (undoLast g1).game.scoreHome = _
    rw [hg2eq]
    rfl
  have hg2O : g2.scoreOpp =
      (updScores g1.scoreHome g1.scoreOpp sideKey
        ((negDelta delta).pts.getD 0)).2 := by
    show (undoLast g1).game.scoreOpp = _
    rw [hg2eq]
    rfl
  have hcancel :
      updScores
        (updScores g.scoreHome g.scoreOpp sideKey (delta.pts.getD 0)).1
        (updScores g.scoreHome g.scoreOpp sideKey (delta.pts.getD 0)).2
        sideKey (-(delta.pts.getD 0)) = (g.scoreHome, g.scoreOpp) :=
    updScores_cancel (fun hpd => hscore hpd)
  have hg2hist : g2.history = g.history.take 499 := by
    show (undoLast g1).game.history = _
    rw [hg2eq]
    show (if hid = "" then g1.history
          else
            match g1.history with
            | [] => []
            | h :: t =>
              if h.id = hid then t
              else List.filter (fun e => e.id != hid) (h :: t)) = _
    rw [if_neg hhid, hg1hist]
    show (if (mkHistoryEvent g sideKey pid delta label hid now).id = hid
          then g.history.take 499
          else List.filter (fun e => e.id != hid)
            (mkHistoryEvent g sideKey pid delta label hid now ::
              g.history.take 499)) = _
    have hidEq :
        (mkHistoryEvent g sideKey pid delta label hid now).id = hid := rfl
    rw [if_pos hidEq]
  refine ⟨?_, ?_, ?_, ?_, ?_, ?_, ?_, ?_⟩
  · rw [hside2, getLine_setLine_self, hside1, getLine_setLine_self]
    exact applyDeltaLine_neg_cancel hline
  · rw [hg2H, hsc1H, hsc1O, negDelta_pts_getD, hcancel]
  · rw [hg2O, hsc1H, hsc1O, negDelta_pts_getD, hcancel]
  · show g2.undo = g1.undo.tail
    have : g2.undo = g.undo.take 299 := by
      show (undoLast g1).game.undo = _
      rw [hg2eq]
    rw [this, hg1undo]
    rfl
  · exact ⟨mkUndoAction sideKey pid delta label hid now,
      by rw [hg1undo]; rfl, rfl⟩
  · rw [hg2hist, hg1hist]
    rfl
  · exact ⟨mkHistoryEvent g sideKey pid delta label hid now,
      by rw [hg1hist]; rfl, rfl⟩
  · intro e he
    rw [hg2hist] at he
    exact hfresh e (List.take_subset _ _ he)

theorem undo_reverses_applyDelta_witness :
    noClampLine (getLine (sideLines sampleGame .home) "pA") deltaPlus2
      = true ∧
    getLine
        (sideLines
          ((undoLast
            (applyDelta sampleGame .home "pA" deltaPlus2 "+2" "h1" 7)).game)
          .home) "pA" =
      getLine (sideLines sampleGame .home) "pA" ∧
    (undoLast
        (applyDelta sampleGame .home "pA" deltaPlus2 "+2" "h1" 7)).game.scoreHome
      = sampleGame.scoreHome := by
  have h := undo_reverses_applyDelta sampleGame .home "pA" deltaPlus2 "+2"
    "h1" 7 (by decide) (by decide) (by decide) (by decide)
  exact ⟨by decide, h.1, h.2.1⟩
